import Mathlib

/-!
Shallow embedding of the core logic of the Viksit Bharat 2047 digital-transactions
dashboard (`src/app.py`): column normalization and schema validation in `load_data`,
the per-state groupby aggregation with its derived ratio columns, the 2047 Outlook
compound-growth projection, the Concentration view, the Spatial metric gate, and the
AI Policy Assistant keyword resolver. Monetary amounts and ratio columns are modelled
as rationals; machine floats carry no role in the claims checked here beyond exact
arithmetic on the given sample values.
-/

namespace ViksitBharat

/-- Substring containment on character lists, the embedding of Python's
`needle in haystack` test on strings. `containsSub n h` is true when `n`
occurs contiguously inside `h`. -/
def containsSub (n : List Char) : List Char → Bool
  | [] => n.isEmpty
  | c :: t => n.isPrefixOf (c :: t) || containsSub n t

/-- Characters of the substring searched for in column names (`"amount" in c`). -/
def amountKey : List Char := "amount".data

/-- Strip leading and trailing whitespace, the embedding of `str.strip()`. -/
def stripChars (l : List Char) : List Char :=
  ((l.dropWhile Char.isWhitespace).reverse.dropWhile Char.isWhitespace).reverse

/-- Column-name normalization from `load_data`: strip, lowercase, and replace
spaces with underscores (`.str.strip().str.lower().str.replace(" ", "_")`). -/
def normalizeCol (s : String) : String :=
  String.mk (((stripChars s.data).map Char.toLower).map fun c =>
    if c = ' ' then '_' else c)

/-- The schema failure surfaced when `load_data` references a column that is
absent after normalization and renaming (the spec's `SchemaError`; in the
source this is the exception pandas raises at `groupby`/`agg`). -/
structure SchemaError where
  missing : String
deriving DecidableEq

/-- The first normalized column name containing `"amount"`, as located by the
`for c in df.columns: if "amount" in c: ...; break` loop. -/
def findAmountCol (cols : List String) : Option String :=
  cols.find? fun c => containsSub amountKey c.data

/-- `df.rename(columns={c: "amount_inr"})` applied to the first column whose
name contains `"amount"` (a pandas rename maps every column bearing that
name); the identity when no column name contains `"amount"`. -/
def renameAmount (cols : List String) : List String :=
  match findAmountCol cols with
  | none => cols
  | some m => cols.map fun c => if c = m then "amount_inr" else c

/-- The column dereferences of the groupby/agg step: `groupby("sender_state")`
then the named aggregations over `transaction_id`, `amount_inr` and
`fraud_flag`; the first absent column is the failure `load_data` surfaces. -/
def checkColumns (cols : List String) : Except SchemaError (List String) :=
  if "sender_state" ∈ cols then
    if "transaction_id" ∈ cols then
      if "amount_inr" ∈ cols then
        if "fraud_flag" ∈ cols then Except.ok cols
        else Except.error ⟨"fraud_flag"⟩
      else Except.error ⟨"amount_inr"⟩
    else Except.error ⟨"transaction_id"⟩
  else Except.error ⟨"sender_state"⟩

/-- Schema handling of `load_data` on the input table's header: normalize every
column name, rename the amount column, then dereference the four required
columns. -/
def loadColumns (raw : List String) : Except SchemaError (List String) :=
  checkColumns (renameAmount (raw.map normalizeCol))

/-- One row of the normalized input table, restricted to the columns the
aggregation reads. -/
structure TransactionRecord where
  sender_state : String
  amount_inr : ℚ
  fraud_flag : ℚ
deriving DecidableEq

/-- One row of the grouped frame `state` before the derived columns are added:
`UPI_Volume` (count of `transaction_id`), `UPI_Value_INR` (sum of `amount_inr`),
`Fraud_Cases` (sum of `fraud_flag`). -/
structure StateRow where
  state : String
  upiVolume : ℕ
  upiValueINR : ℚ
  fraudCases : ℚ
deriving DecidableEq

/-- The distinct region keys of the record set (the groupby keys). -/
def regionsOf (l : List TransactionRecord) : List String :=
  (l.map fun x => x.sender_state).dedup

/-- The rows of one groupby group: exact string match on `sender_state`. -/
def groupOf (l : List TransactionRecord) (r : String) : List TransactionRecord :=
  l.filter fun x => x.sender_state = r

/-- The grouped aggregation `df.groupby("sender_state").agg(...)` producing
count, sum and fraud-sum per distinct region. -/
def groupRows (l : List TransactionRecord) : List StateRow :=
  (regionsOf l).map fun r =>
    { state := r
      upiVolume := (groupOf l r).length
      upiValueINR := ((groupOf l r).map fun x => x.amount_inr).sum
      fraudCases := ((groupOf l r).map fun x => x.fraud_flag).sum }

/-- `state["UPI_Volume"].sum()`, the denominator of the share column. -/
def totalVolume (l : List TransactionRecord) : ℕ :=
  ((groupRows l).map fun b => b.upiVolume).sum

/-- One row of the final `state` frame: the spec's Regional Aggregate, with the
grouped columns plus the derived ratio columns of `load_data`. -/
structure RegionalAggregate where
  region : String
  transaction_count : ℕ
  total_value : ℚ
  fraud_count : ℚ
  value_scaled : ℚ
  fraud_per_million : ℚ
  share_percent : ℚ
  avg_value_per_txn : ℚ
deriving DecidableEq

/-- The full aggregation pipeline of `load_data` after schema resolution:
group by `sender_state`, then derive `UPI_Value_Crore = UPI_Value_INR / 1e7`,
`Fraud_per_Million = Fraud_Cases / UPI_Volume * 1e6`,
`Share_% = UPI_Volume / UPI_Volume.sum() * 100` and
`Avg_Value_per_Txn = UPI_Value_INR / UPI_Volume`. -/
def aggregate (l : List TransactionRecord) : List RegionalAggregate :=
  (groupRows l).map fun b =>
    { region := b.state
      transaction_count := b.upiVolume
      total_value := b.upiValueINR
      fraud_count := b.fraudCases
      value_scaled := b.upiValueINR / 10000000
      fraud_per_million := b.fraudCases / (b.upiVolume : ℚ) * 1000000
      share_percent := (b.upiVolume : ℚ) / (totalVolume l : ℚ) * 100
      avg_value_per_txn := b.upiValueINR / (b.upiVolume : ℚ) }

/-- The 4-row sample of the spec's end-to-end test: regions `{A,A,B,B}`,
amounts `{100,200,50,50}`, fraud flags `{0,1,0,0}`. -/
def sampleRecords : List TransactionRecord :=
  [⟨"A", 100, 0⟩, ⟨"A", 200, 1⟩, ⟨"B", 50, 0⟩, ⟨"B", 50, 0⟩]

/-- The expected region-A aggregate of the sample: count 2, total value 300,
fraud count 1, fraud per million 500000, share 50 percent. -/
def aggSampleA : RegionalAggregate :=
  ⟨"A", 2, 300, 1, 300 / 10000000, 500000, 50, 150⟩

/-- The expected region-B aggregate of the sample: count 2, total value 100,
fraud count 0, fraud per million 0, share 50 percent. -/
def aggSampleB : RegionalAggregate :=
  ⟨"B", 2, 100, 0, 100 / 10000000, 0, 50, 50⟩

/-- Six aggregates whose share values are 40, 25, 15, 10, 5, 5: the spec's
Concentration example (the remaining fields play no role there). -/
def concentrationSample : List RegionalAggregate :=
  [⟨"R1", 0, 0, 0, 0, 0, 40, 0⟩, ⟨"R2", 0, 0, 0, 0, 0, 25, 0⟩,
   ⟨"R3", 0, 0, 0, 0, 0, 15, 0⟩, ⟨"R4", 0, 0, 0, 0, 0, 10, 0⟩,
   ⟨"R5", 0, 0, 0, 0, 0, 5, 0⟩, ⟨"R6", 0, 0, 0, 0, 0, 5, 0⟩]

/-! ### 2047 Outlook projection -/

/-- `list(range(BASE_YEAR, TARGET_YEAR + 1))`. -/
def yearsList (b t : ℕ) : List ℕ := List.range' b (t + 1 - b)

/-- The projection series, pairing each year with
`base_volume * ((1 + growth / 100) ** (y - BASE_YEAR))`. -/
def projection (base g : ℚ) (b t : ℕ) : List (ℕ × ℚ) :=
  (yearsList b t).map fun y => (y, base * (1 + g / 100) ^ (y - b))

/-- `BASE_YEAR = 2024`. -/
def baseYear : ℕ := 2024

/-- `TARGET_YEAR = 2047`. -/
def targetYear : ℕ := 2047

/-- `SCALE_FACTOR = 1_000_000`. -/
def scaleFactor : ℚ := 1000000

/-- `state_summary["UPI_Volume"].sum()`, the dataset's total transaction count. -/
def totalTransactionCount (aggs : List RegionalAggregate) : ℕ :=
  (aggs.map fun a => a.transaction_count).sum

/-- The Outlook view's growth multiple, generalized over the scale factor:
final projected value (`projection[-1]`) divided by the base volume
`total * scale`. -/
def growthMultipleScaled (aggs : List RegionalAggregate) (scale g : ℚ) : ℚ :=
  let base : ℚ := (totalTransactionCount aggs : ℚ) * scale
  ((projection base g baseYear targetYear).getLastD (0, 0)).2 / base

/-- `projection[-1] / base_volume`, the Growth Multiple reported by the
Outlook view with the source's fixed `SCALE_FACTOR`. -/
def growthMultiple (aggs : List RegionalAggregate) (g : ℚ) : ℚ :=
  growthMultipleScaled aggs scaleFactor g

/-! ### Spatial metric gate -/

/-- The metric names a Spatial request may carry, the option list of the
`st.selectbox("Metric", ...)` widget. -/
def spatialMetricOptions : List String :=
  ["UPI_Volume", "UPI_Value_Crore", "Fraud_per_Million"]

/-- The failure on an unrecognized Spatial metric name (the spec's
`InvalidMetricError`; in the source the selectbox refuses any name outside
its option list, so such a request never reaches the chart). -/
structure InvalidMetricError where
  metric : String
deriving DecidableEq

/-- The Spatial view's metric resolution: for an allowed metric name, the
(region, metric value) pairs the choropleth colors by; otherwise the
invalid-metric failure. -/
def spatialView (m : String) (aggs : List RegionalAggregate) :
    Except InvalidMetricError (List (String × ℚ)) :=
  if m = "UPI_Volume" then
    Except.ok (aggs.map fun a => (a.region, (a.transaction_count : ℚ)))
  else if m = "UPI_Value_Crore" then
    Except.ok (aggs.map fun a => (a.region, a.value_scaled))
  else if m = "Fraud_per_Million" then
    Except.ok (aggs.map fun a => (a.region, a.fraud_per_million))
  else Except.error ⟨m⟩

/-! ### Concentration view -/

/-- The descending-share order used by
`state_summary.sort_values("Share_%", ascending=False)`. -/
def shareOrder (a b : RegionalAggregate) : Prop :=
  b.share_percent ≤ a.share_percent

instance : DecidableRel shareOrder := fun a b =>
  inferInstanceAs (Decidable (b.share_percent ≤ a.share_percent))

/-- Sorting the aggregates by `Share_%` descending. -/
def sortByShareDesc (aggs : List RegionalAggregate) : List RegionalAggregate :=
  List.insertionSort shareOrder aggs

/-- `top10 = state_summary.sort_values("Share_%", ascending=False).head(10)`. -/
def concentrationTop10 (aggs : List RegionalAggregate) : List RegionalAggregate :=
  (sortByShareDesc aggs).take 10

/-- `top10.head(5)["Share_%"].sum()`, the Top 5 States Share scalar. -/
def top5Share (aggs : List RegionalAggregate) : ℚ :=
  (((concentrationTop10 aggs).take 5).map fun a => a.share_percent).sum

/-! ### AI Policy Assistant -/

/-- Canned response for queries mentioning fraud. -/
def fraudResponse : String :=
  "Fraud increases during rapid adoption; policy must pair growth with cyber literacy."

/-- Canned response for queries mentioning 2047. -/
def outlookResponse : String :=
  "Viksit Bharat 2047 requires inclusive digital infrastructure across all states."

/-- Canned response for queries mentioning concentration. -/
def concentrationResponse : String :=
  "High concentration shows uneven regional digital readiness."

/-- The fallback prompt when no trigger substring matches. -/
def fallbackResponse : String :=
  "Ask about fraud, growth, inclusion, or long-term digital policy."

/-- Python's `trig in q` substring test on strings. -/
def containsTrigger (q trig : String) : Bool :=
  containsSub trig.data q.data

/-- `q.lower()`: lowercase every character of the query. -/
def lowerString (s : String) : String :=
  String.mk (s.data.map Char.toLower)

/-- The AI Policy Assistant branch: lowercase the query, then return the first
canned response whose trigger substring occurs in it, in the fixed order
fraud, 2047, concentration; otherwise the fallback prompt. -/
def resolveQuery (q : String) : String :=
  let ql := lowerString q
  if containsTrigger ql "fraud" then fraudResponse
  else if containsTrigger ql "2047" then outlookResponse
  else if containsTrigger ql "concentration" then concentrationResponse
  else fallbackResponse

/-! ### Projection lemmas -/

lemma projection_length (base g : ℚ) (b t : ℕ) :
    (projection base g b t).length = t + 1 - b := by
  simp [projection, yearsList]

lemma projection_get (base g : ℚ) (b t i : ℕ)
    (hi : i < (projection base g b t).length) :
    (projection base g b t).get ⟨i, hi⟩ = (b + i, base * (1 + g / 100) ^ i) := by
  have hi' : i < (List.range' b (t + 1 - b)).length := by
    simpa [projection, yearsList] using hi
  simp [projection, yearsList, List.get_eq_getElem, List.getElem_map,
    List.getElem_range'_1, Nat.add_sub_cancel_left]

/-- C3: for every base total, growth rate and pair `base_year ≤ target_year`,
the projection has length `target_year - base_year + 1`, its `i`-th entry is
the pair `(base_year + i, base_total * (1 + growth/100) ^ i)` — so entry `y`
carries `base_total * (1 + growth/100) ^ (y - base_year)` — its years are
strictly ascending, and the entry at the base year is exactly `base_total`. -/
theorem projection_formula (base g : ℚ) (b t : ℕ) (hbt : b ≤ t) :
    (projection base g b t).length = t - b + 1 ∧
    (∀ i (hi : i < (projection base g b t).length),
      (projection base g b t).get ⟨i, hi⟩ = (b + i, base * (1 + g / 100) ^ i)) ∧
    List.Chain' (fun p q : ℕ × ℚ => p.1 < q.1) (projection base g b t) ∧
    ∃ h0 : 0 < (projection base g b t).length,
      (projection base g b t).get ⟨0, h0⟩ = (b, base) := by
  refine ⟨?_, fun i hi => projection_get base g b t i hi, ?_, ?_⟩
  · rw [projection_length]; omega
  · rw [List.chain'_iff_get]
    intro i h
    rw [projection_get, projection_get]
    simp
  · have h0 : 0 < (projection base g b t).length := by
      rw [projection_length]; omega
    refine ⟨h0, ?_⟩
    rw [projection_get]
    simp

/-- Witness for C3 at `base_total = 7`, `growth = 10`, years 2024 to 2026. -/
theorem projection_formula_witness :
    (2024 : ℕ) ≤ 2026 ∧ (projection 7 10 2024 2026).length = 2026 - 2024 + 1 :=
  ⟨by norm_num, (projection_formula 7 10 2024 2026 (by norm_num)).1⟩

/-- C9: with a positive base total, the projected values are strictly
increasing in year when the growth rate is positive, constant when it is
zero, and strictly decreasing when it lies strictly between `-100` and `0`. -/
theorem projection_monotone (base g : ℚ) (b t : ℕ) (hbase : 0 < base) :
    (0 < g → ∀ i j (hi : i < (projection base g b t).length)
        (hj : j < (projection base g b t).length), i < j →
        ((projection base g b t).get ⟨i, hi⟩).2 <
          ((projection base g b t).get ⟨j, hj⟩).2) ∧
    (g = 0 → ∀ i (hi : i < (projection base g b t).length),
        ((projection base g b t).get ⟨i, hi⟩).2 = base) ∧
    (-100 < g → g < 0 → ∀ i j (hi : i < (projection base g b t).length)
        (hj : j < (projection base g b t).length), i < j →
        ((projection base g b t).get ⟨j, hj⟩).2 <
          ((projection base g b t).get ⟨i, hi⟩).2) := by
  refine ⟨?_, ?_, ?_⟩
  · intro hg i j hi hj hij
    rw [projection_get, projection_get]
    have hq : 1 < 1 + g / 100 := by
      have : 0 < g / 100 := by positivity
      linarith
    exact mul_lt_mul_of_pos_left (pow_lt_pow_right₀ hq hij) hbase
  · intro hg i hi
    rw [projection_get]
    simp [hg]
  · intro hg1 hg2 i j hi hj hij
    rw [projection_get, projection_get]
    have hq0 : 0 < 1 + g / 100 := by linarith
    have hq1 : 1 + g / 100 < 1 := by linarith
    exact mul_lt_mul_of_pos_left (pow_lt_pow_right_of_lt_one₀ hq0 hq1 hij) hbase

/-- Witness for C9: at `base = 1`, `growth = 12`, horizon 2024 to 2026, the
value at 2024 is below the value at 2025. -/
theorem projection_monotone_witness :
    ∃ hi : 0 < (projection 1 12 2024 2026).length,
    ∃ hj : 1 < (projection 1 12 2024 2026).length,
      ((projection 1 12 2024 2026).get ⟨0, hi⟩).2 <
        ((projection 1 12 2024 2026).get ⟨1, hj⟩).2 :=
  ⟨by decide, by decide,
    (projection_monotone 1 12 2024 2026 (by norm_num)).1 (by norm_num) 0 1
      (by decide) (by decide) (by norm_num)⟩

lemma projection_getLastD (base g : ℚ) (b t : ℕ) (hbt : b ≤ t) :
    (projection base g b t).getLastD (0, 0) =
      (t, base * (1 + g / 100) ^ (t - b)) := by
  have hlt : t - b < (projection base g b t).length := by
    rw [projection_length]; omega
  have hidx : (projection base g b t).length - 1 = t - b := by
    rw [projection_length]; omega
  rw [List.getLastD_eq_getLast?, List.getLast?_eq_getElem?, hidx,
    List.getElem?_eq_getElem hlt]
  have := projection_get base g b t (t - b) hlt
  rw [List.get_eq_getElem] at this
  rw [this]
  simp
  omega

/-- C10: for every aggregate collection with positive total transaction count,
the Outlook view's Growth Multiple — the final projected value divided by the
base volume — equals `(1 + growth/100) ^ (2047 - 2024)` exactly, whatever the
dataset's contents; the same holds for any nonzero scale factor in place of
the fixed `SCALE_FACTOR`. -/
theorem growth_multiple_formula (aggs : List RegionalAggregate) (g : ℚ)
    (hpos : 0 < totalTransactionCount aggs) :
    growthMultiple aggs g = (1 + g / 100) ^ (targetYear - baseYear) ∧
    ∀ scale : ℚ, scale ≠ 0 →
      growthMultipleScaled aggs scale g = (1 + g / 100) ^ (targetYear - baseYear) := by
  have main : ∀ scale : ℚ, scale ≠ 0 →
      growthMultipleScaled aggs scale g = (1 + g / 100) ^ (targetYear - baseYear) := by
    intro scale hs
    have hbase : ((totalTransactionCount aggs : ℚ)) * scale ≠ 0 :=
      mul_ne_zero (Nat.cast_ne_zero.2 (by omega)) hs
    simp only [growthMultipleScaled]
    rw [projection_getLastD _ _ _ _ (by norm_num [baseYear, targetYear])]
    rw [mul_comm, mul_div_assoc, div_self hbase, mul_one]
  exact ⟨by rw [growthMultiple]; exact main scaleFactor (by norm_num [scaleFactor]), main⟩

/-- Witness for C10 at a one-region dataset with one transaction and a 12%
growth rate. -/
theorem growth_multiple_formula_witness :
    growthMultiple [⟨"A", 1, 0, 0, 0, 0, 0, 0⟩] 12 =
      (1 + 12 / 100) ^ (targetYear - baseYear) :=
  (growth_multiple_formula _ 12 (by decide)).1

/-! ### Query resolver theorems -/

/-- C4: the resolver lowercases its input and returns the fraud response when
the result contains `"fraud"`, else the 2047 response when it contains
`"2047"`, else the concentration response when it contains `"concentration"`,
else the fixed fallback prompt; it always returns one of these four
responses, and a query containing both `"fraud"` and `"2047"` gets the fraud
response. -/
theorem resolver_total_and_ordered (q : String) :
    (containsTrigger (lowerString q) "fraud" = true →
      resolveQuery q = fraudResponse) ∧
    (containsTrigger (lowerString q) "fraud" = false →
      containsTrigger (lowerString q) "2047" = true →
      resolveQuery q = outlookResponse) ∧
    (containsTrigger (lowerString q) "fraud" = false →
      containsTrigger (lowerString q) "2047" = false →
      containsTrigger (lowerString q) "concentration" = true →
      resolveQuery q = concentrationResponse) ∧
    (containsTrigger (lowerString q) "fraud" = false →
      containsTrigger (lowerString q) "2047" = false →
      containsTrigger (lowerString q) "concentration" = false →
      resolveQuery q = fallbackResponse) ∧
    (resolveQuery q = fraudResponse ∨ resolveQuery q = outlookResponse ∨
      resolveQuery q = concentrationResponse ∨ resolveQuery q = fallbackResponse) ∧
    (containsTrigger (lowerString q) "fraud" = true →
      containsTrigger (lowerString q) "2047" = true →
      resolveQuery q = fraudResponse) := by
  refine ⟨?_, ?_, ?_, ?_, ?_, ?_⟩
  · intro h1; simp [resolveQuery, h1]
  · intro h1 h2; simp [resolveQuery, h1, h2]
  · intro h1 h2 h3; simp [resolveQuery, h1, h2, h3]
  · intro h1 h2 h3; simp [resolveQuery, h1, h2, h3]
  · cases h1 : containsTrigger (lowerString q) "fraud"
    · cases h2 : containsTrigger (lowerString q) "2047"
      · cases h3 : containsTrigger (lowerString q) "concentration"
        · exact Or.inr (Or.inr (Or.inr (by simp [resolveQuery, h1, h2, h3])))
        · exact Or.inr (Or.inr (Or.inl (by simp [resolveQuery, h1, h2, h3])))
      · exact Or.inr (Or.inl (by simp [resolveQuery, h1, h2]))
    · exact Or.inl (by simp [resolveQuery, h1])
  · intro h1 _; simp [resolveQuery, h1]

/-- Witness for C4: a query containing both `"fraud"` and `"2047"` yields the
fraud response. -/
theorem resolver_total_and_ordered_witness :
    resolveQuery "Will FRAUD matter for 2047?" = fraudResponse :=
  (resolver_total_and_ordered "Will FRAUD matter for 2047?").2.2.2.2.2
    (by decide) (by decide)

/-! ### Spatial metric gate theorems -/

/-- C6: a Spatial request with a metric name outside
`{UPI_Volume, UPI_Value_Crore, Fraud_per_Million}` fails with the
invalid-metric error, while each of the three allowed names yields the
(region, metric value) pairs without error. -/
theorem spatial_metric_gate (m : String) (aggs : List RegionalAggregate) :
    (m ∉ spatialMetricOptions → ∃ e, spatialView m aggs = Except.error e) ∧
    spatialView "UPI_Volume" aggs =
      Except.ok (aggs.map fun a => (a.region, (a.transaction_count : ℚ))) ∧
    spatialView "UPI_Value_Crore" aggs =
      Except.ok (aggs.map fun a => (a.region, a.value_scaled)) ∧
    spatialView "Fraud_per_Million" aggs =
      Except.ok (aggs.map fun a => (a.region, a.fraud_per_million)) := by
  refine ⟨?_, by simp [spatialView], by simp [spatialView], by simp [spatialView]⟩
  intro hm
  simp only [spatialMetricOptions, List.mem_cons, List.not_mem_nil, or_false,
    not_or] at hm
  obtain ⟨h1, h2, h3⟩ := hm
  exact ⟨⟨m⟩, by simp [spatialView, h1, h2, h3]⟩

/-- Witness for C6: the metric name `"State"` is rejected. -/
theorem spatial_metric_gate_witness :
    ∃ e, spatialView "State" [] = Except.error e :=
  (spatial_metric_gate "State" []).1 (by decide)

/-! ### Aggregation lemmas -/

lemma regionsOf_sample : regionsOf sampleRecords = ["A", "B"] := by decide

lemma groupOf_sample_A :
    groupOf sampleRecords "A" = [⟨"A", 100, 0⟩, ⟨"A", 200, 1⟩] := by decide

lemma groupOf_sample_B :
    groupOf sampleRecords "B" = [⟨"B", 50, 0⟩, ⟨"B", 50, 0⟩] := by decide

lemma groupRows_sample :
    groupRows sampleRecords = [⟨"A", 2, 300, 1⟩, ⟨"B", 2, 100, 0⟩] := by
  rw [groupRows, regionsOf_sample]
  norm_num [groupOf_sample_A, groupOf_sample_B]

lemma aggregate_sample : aggregate sampleRecords = [aggSampleA, aggSampleB] := by
  rw [aggregate, groupRows_sample, totalVolume, groupRows_sample]
  norm_num [aggSampleA, aggSampleB]

/-- C2: aggregation groups records by exact region key, with per-group
`transaction_count` the row count, `total_value` the sum of amounts, and
`fraud_count` the sum of fraud flags; on the 4-row sample it yields region A
with count 2, total 300, fraud count 1, fraud per million 500000, share 50
and region B with count 2, total 100, fraud count 0, fraud per million 0,
share 50. -/
theorem aggregation_semantics :
    (∀ (l : List TransactionRecord) (a : RegionalAggregate), a ∈ aggregate l →
      a.transaction_count = (groupOf l a.region).length ∧
      a.total_value = ((groupOf l a.region).map fun x => x.amount_inr).sum ∧
      a.fraud_count = ((groupOf l a.region).map fun x => x.fraud_flag).sum) ∧
    aggregate sampleRecords = [aggSampleA, aggSampleB] := by
  refine ⟨?_, aggregate_sample⟩
  intro l a ha
  simp only [aggregate] at ha
  rcases List.mem_map.1 ha with ⟨b, hb, rfl⟩
  simp only [groupRows] at hb
  rcases List.mem_map.1 hb with ⟨r, hr, rfl⟩
  exact ⟨rfl, rfl, rfl⟩

/-- Witness for C2: the region-A aggregate of the sample has the group's row
count as its transaction count. -/
theorem aggregation_semantics_witness :
    aggSampleA.transaction_count = (groupOf sampleRecords aggSampleA.region).length :=
  (aggregation_semantics.1 sampleRecords aggSampleA
    (by rw [aggregate_sample]; exact List.mem_cons_self _ _)).1

lemma sum_map_add_nat {α : Type} (R : List α) (A B : α → ℕ) :
    (R.map fun r => A r + B r).sum = (R.map A).sum + (R.map B).sum := by
  induction R with
  | nil => simp
  | cons r R ih => simp [ih]; omega

lemma sum_indicator_of_not_mem (s : String) (R : List String) (hs : s ∉ R) :
    (R.map fun r => if s = r then (1 : ℕ) else 0).sum = 0 := by
  induction R with
  | nil => simp
  | cons r R ih =>
    rw [List.mem_cons, not_or] at hs
    simp [hs.1, ih hs.2]

lemma sum_indicator_of_nodup (s : String) (R : List String) (hR : R.Nodup)
    (hs : s ∈ R) :
    (R.map fun r => if s = r then (1 : ℕ) else 0).sum = 1 := by
  induction R with
  | nil => cases hs
  | cons r R ih =>
    rw [List.nodup_cons] at hR
    rcases List.mem_cons.1 hs with h | h
    · subst h
      simp [sum_indicator_of_not_mem _ _ hR.1]
    · have hner : s ≠ r := fun e => hR.1 (e ▸ h)
      simp [hner, ih hR.2 h]

lemma length_eq_sum_group_lengths (l : List TransactionRecord) (R : List String)
    (hR : R.Nodup) (hmem : ∀ x ∈ l, x.sender_state ∈ R) :
    (R.map fun r => (groupOf l r).length).sum = l.length := by
  induction l with
  | nil => simp [groupOf]
  | cons x l ih =>
    have hx := hmem x (List.mem_cons_self x l)
    have hmem2 : ∀ y ∈ l, y.sender_state ∈ R := fun y hy =>
      hmem y (List.mem_cons_of_mem _ hy)
    have hsplit : ∀ r : String, (groupOf (x :: l) r).length =
        (if x.sender_state = r then 1 else 0) + (groupOf l r).length := by
      intro r
      by_cases h : x.sender_state = r
      · simp only [groupOf, List.filter_cons]
        simp [h, Nat.add_comm]
      · simp [groupOf, List.filter_cons, h]
    simp only [hsplit]
    rw [sum_map_add_nat, sum_indicator_of_nodup _ _ hR hx, ih hmem2]
    simp [Nat.add_comm]

lemma totalVolume_eq_length (l : List TransactionRecord) :
    totalVolume l = l.length := by
  have h : ((regionsOf l).map fun r => (groupOf l r).length).sum = l.length :=
    length_eq_sum_group_lengths l (regionsOf l) (List.nodup_dedup _)
      (fun x hx => List.mem_dedup.2 (List.mem_map_of_mem _ hx))
  rw [totalVolume, groupRows, List.map_map]
  exact h

lemma sum_map_div_mul (L : List ℚ) (T : ℚ) :
    (L.map fun c => c / T * 100).sum = L.sum / T * 100 := by
  induction L with
  | nil => simp
  | cons c L ih =>
    simp only [List.map_cons, List.sum_cons, ih]
    ring

/-- C5: every aggregate's `share_percent` is its transaction count divided by
the sum of all transaction counts, times 100, and over a nonempty record set
the shares sum to exactly 100 (hence within any tolerance). -/
theorem share_percent_invariant (l : List TransactionRecord) (hne : l ≠ []) :
    (∀ a ∈ aggregate l,
      a.share_percent = (a.transaction_count : ℚ) /
        ((((aggregate l).map fun x => x.transaction_count).sum : ℕ) : ℚ) * 100) ∧
    ((aggregate l).map fun a => a.share_percent).sum = 100 := by
  have hmapcount : ((aggregate l).map fun x => x.transaction_count) =
      (groupRows l).map fun b => b.upiVolume := by
    rw [aggregate, List.map_map]
    rfl
  have hmapshare : ((aggregate l).map fun a => a.share_percent) =
      (groupRows l).map fun b => (b.upiVolume : ℚ) / (totalVolume l : ℚ) * 100 := by
    rw [aggregate, List.map_map]
    rfl
  have hsumcast : ((groupRows l).map fun b => (b.upiVolume : ℚ)).sum =
      ((totalVolume l : ℕ) : ℚ) := by
    rw [totalVolume, Nat.cast_list_sum, List.map_map]
    rfl
  have hT : ((l.length : ℚ)) ≠ 0 := by
    have h0 : 0 < l.length := List.length_pos.2 hne
    exact_mod_cast h0.ne'
  constructor
  · intro a ha
    rw [hmapcount]
    simp only [aggregate] at ha
    rcases List.mem_map.1 ha with ⟨b, hb, rfl⟩
    rfl
  · have hsplit2 : ((groupRows l).map fun b =>
        (b.upiVolume : ℚ) / (totalVolume l : ℚ) * 100) =
        (((groupRows l).map fun b => (b.upiVolume : ℚ)).map fun c =>
          c / (totalVolume l : ℚ) * 100) := by
      rw [List.map_map]
      rfl
    rw [hmapshare, hsplit2, sum_map_div_mul, hsumcast]
    rw [totalVolume_eq_length, div_self hT, one_mul]

/-- Witness for C5 on the 4-row sample: the shares sum to exactly 100. -/
theorem share_percent_invariant_witness :
    ((aggregate sampleRecords).map fun a => a.share_percent).sum = 100 :=
  (share_percent_invariant sampleRecords (by decide)).2

lemma exists_nat_sum_flags (g : List TransactionRecord)
    (hg : ∀ x ∈ g, x.fraud_flag = 0 ∨ x.fraud_flag = 1) :
    ∃ n : ℕ, (g.map fun x => x.fraud_flag).sum = (n : ℚ) ∧ n ≤ g.length := by
  induction g with
  | nil => exact ⟨0, by simp, by simp⟩
  | cons x g ih =>
    obtain ⟨n, hn, hle⟩ := ih fun y hy => hg y (List.mem_cons_of_mem _ hy)
    rcases hg x (List.mem_cons_self x g) with h0 | h1
    · refine ⟨n, ?_, ?_⟩
      · simp [h0, hn]
      · simp
        omega
    · refine ⟨n + 1, ?_, ?_⟩
      · simp only [List.map_cons, List.sum_cons, h1, hn]
        push_cast
        ring
      · simp
        omega

/-- C8: when every fraud flag is 0 or 1, each regional aggregate's
`fraud_count` is a non-negative integer bounded by its `transaction_count`. -/
theorem fraud_count_bounded (l : List TransactionRecord)
    (hf : ∀ x ∈ l, x.fraud_flag = 0 ∨ x.fraud_flag = 1) :
    ∀ a ∈ aggregate l, ∃ n : ℕ, a.fraud_count = (n : ℚ) ∧ n ≤ a.transaction_count := by
  intro a ha
  simp only [aggregate] at ha
  rcases List.mem_map.1 ha with ⟨b, hb, rfl⟩
  simp only [groupRows] at hb
  rcases List.mem_map.1 hb with ⟨r, hr, rfl⟩
  exact exists_nat_sum_flags (groupOf l r) fun y hy => hf y (List.mem_of_mem_filter hy)

/-- Witness for C8 on the 4-row sample: the region-A aggregate's fraud count
is an integer at most its transaction count. -/
theorem fraud_count_bounded_witness :
    ∃ n : ℕ, aggSampleA.fraud_count = (n : ℚ) ∧ n ≤ aggSampleA.transaction_count :=
  fraud_count_bounded sampleRecords (by decide) aggSampleA
    (by rw [aggregate_sample]; exact List.mem_cons_self _ _)

/-! ### Concentration view theorems -/

/-- C7: the Concentration view is the aggregates sorted by `share_percent`
descending, truncated to the top 10 (so it is a sorted prefix of a
permutation of the input, of length at most 10), and the reported top-5 sum
on the six-region example with shares 40, 25, 15, 10, 5, 5 is 95. -/
theorem concentration_view (aggs : List RegionalAggregate) :
    concentrationTop10 aggs = (sortByShareDesc aggs).take 10 ∧
    List.Perm (sortByShareDesc aggs) aggs ∧
    List.Sorted shareOrder (concentrationTop10 aggs) ∧
    (concentrationTop10 aggs).length ≤ 10 ∧
    top5Share concentrationSample = 95 := by
  haveI : IsTotal RegionalAggregate shareOrder := ⟨fun a b => le_total _ _⟩
  haveI : IsTrans RegionalAggregate shareOrder :=
    ⟨fun a b c hab hbc => le_trans hbc hab⟩
  refine ⟨rfl, List.perm_insertionSort _ _, ?_, ?_, ?_⟩
  · exact List.Pairwise.sublist (List.take_sublist _ _)
      (List.sorted_insertionSort shareOrder aggs)
  · exact List.length_take_le _ _
  · norm_num [top5Share, concentrationTop10, sortByShareDesc, concentrationSample,
      shareOrder]

/-! ### Schema resolution theorems -/

lemma containsSub_amount_inr : containsSub amountKey "amount_inr".data = true := by
  decide

lemma not_amount_sender_state :
    containsSub amountKey "sender_state".data = false := by decide

lemma not_amount_transaction_id :
    containsSub amountKey "transaction_id".data = false := by decide

lemma not_amount_fraud_flag :
    containsSub amountKey "fraud_flag".data = false := by decide

lemma renameAmount_length (cols : List String) :
    (renameAmount cols).length = cols.length := by
  unfold renameAmount
  cases h : findAmountCol cols <;> simp

lemma mem_renameAmount_iff (cols : List String) (s : String)
    (hs : containsSub amountKey s.data = false) :
    s ∈ renameAmount cols ↔ s ∈ cols := by
  unfold renameAmount
  cases hfind : findAmountCol cols with
  | none => exact Iff.rfl
  | some m =>
    have hfind2 := hfind
    rw [findAmountCol] at hfind2
    have hm : containsSub amountKey m.data = true := by
      simpa using List.find?_some hfind2
    constructor
    · intro h
      rcases List.mem_map.1 h with ⟨c, hc, hceq⟩
      by_cases hcm : c = m
      · exfalso
        rw [if_pos hcm] at hceq
        rw [← hceq] at hs
        rw [containsSub_amount_inr] at hs
        cases hs
      · rw [if_neg hcm] at hceq
        rw [← hceq]
        exact hc
    · intro h
      by_cases hsm : s = m
      · exfalso
        rw [hsm, hm] at hs
        cases hs
      · exact List.mem_map.2 ⟨s, h, if_neg hsm⟩

lemma amount_inr_mem_renameAmount (cols : List String) :
    "amount_inr" ∈ renameAmount cols ↔
      ∃ c ∈ cols, containsSub amountKey c.data = true := by
  unfold renameAmount
  cases hfind : findAmountCol cols with
  | none =>
    rw [findAmountCol] at hfind
    constructor
    · intro h
      exact absurd containsSub_amount_inr
        (by simpa using List.find?_eq_none.1 hfind _ h)
    · rintro ⟨c, hc, hctrue⟩
      exact absurd hctrue (by simpa using List.find?_eq_none.1 hfind c hc)
  | some m =>
    have hfind2 := hfind
    rw [findAmountCol] at hfind2
    have hm : containsSub amountKey m.data = true := by
      simpa using List.find?_some hfind2
    have hmem : m ∈ cols := List.mem_of_find?_eq_some hfind2
    constructor
    · intro _
      exact ⟨m, hmem, hm⟩
    · intro _
      exact List.mem_map.2 ⟨m, hmem, if_pos rfl⟩

lemma checkColumns_error_of_missing (cols : List String)
    (h : "sender_state" ∉ cols ∨ "transaction_id" ∉ cols ∨
      "amount_inr" ∉ cols ∨ "fraud_flag" ∉ cols) :
    ∃ e, checkColumns cols = Except.error e := by
  unfold checkColumns
  split_ifs with h1 h2 h3 h4
  · tauto
  · exact ⟨_, rfl⟩
  · exact ⟨_, rfl⟩
  · exact ⟨_, rfl⟩
  · exact ⟨_, rfl⟩

lemma renameAmount_first (cols : List String)
    (hex : ∃ c ∈ cols, containsSub amountKey c.data = true) :
    ∃ i, (∃ cm : String, cols[i]? = some cm ∧ containsSub amountKey cm.data = true) ∧
      (∀ (j : ℕ) (cj : String), j < i → cols[j]? = some cj →
        containsSub amountKey cj.data = false) ∧
      (renameAmount cols)[i]? = some "amount_inr" := by
  induction cols with
  | nil => simp at hex
  | cons c t ih =>
    by_cases hc : containsSub amountKey c.data = true
    · have hfind : findAmountCol (c :: t) = some c := by
        rw [findAmountCol]
        exact List.find?_cons_of_pos _ hc
      refine ⟨0, ⟨c, by simp, hc⟩, ?_, ?_⟩
      · intro j cj hj
        omega
      · rw [renameAmount, hfind]
        simp
    · have hcf : containsSub amountKey c.data = false := by
        revert hc
        cases containsSub amountKey c.data <;> simp
      have hext : ∃ c2 ∈ t, containsSub amountKey c2.data = true := by
        rcases hex with ⟨c2, hc2, htrue⟩
        rcases List.mem_cons.1 hc2 with h | h
        · exfalso
          rw [h] at htrue
          rw [htrue] at hcf
          cases hcf
        · exact ⟨c2, h, htrue⟩
      obtain ⟨i, ⟨cw, hcw, hcwtrue⟩, hbefore, hren⟩ := ih hext
      cases hfindt : findAmountCol t with
      | none =>
        exfalso
        rw [findAmountCol] at hfindt
        rcases hext with ⟨c2, hc2, htrue⟩
        exact absurd htrue (by simpa using List.find?_eq_none.1 hfindt c2 hc2)
      | some m =>
        have hfindc : findAmountCol (c :: t) = some m := by
          rw [findAmountCol] at hfindt ⊢
          rw [List.find?_cons_of_neg _ (by simp [hcf])]
          exact hfindt
        refine ⟨i + 1, ⟨cw, by simpa [List.getElem?_cons_succ] using hcw, hcwtrue⟩,
          ?_, ?_⟩
        · intro j cj hj hget
          cases j with
          | zero =>
            rw [List.getElem?_cons_zero] at hget
            rw [Option.some_inj] at hget
            rw [← hget]
            exact hcf
          | succ j2 =>
            rw [List.getElem?_cons_succ] at hget
            exact hbefore j2 cj (by omega) hget
        · rw [renameAmount, hfindc]
          rw [renameAmount, hfindt] at hren
          simpa [List.getElem?_cons_succ] using hren

/-- C1: the load fails with a `SchemaError` when no normalized column name
contains `"amount"`, and when the region, transaction-identifier, or fraud
column is absent after normalization; when an amount column exists, the
first normalized column name containing `"amount"` (every earlier column
lacking it) is renamed to the fixed internal name `amount_inr`. -/
theorem load_data_schema (raw : List String) :
    ((∀ c ∈ raw.map normalizeCol, containsSub amountKey c.data = false) →
      ∃ e, loadColumns raw = Except.error e) ∧
    (("sender_state" ∉ raw.map normalizeCol ∨
        "transaction_id" ∉ raw.map normalizeCol ∨
        "fraud_flag" ∉ raw.map normalizeCol) →
      ∃ e, loadColumns raw = Except.error e) ∧
    ((∃ c ∈ raw.map normalizeCol, containsSub amountKey c.data = true) →
      ∃ i, (∃ cm : String, (raw.map normalizeCol)[i]? = some cm ∧
          containsSub amountKey cm.data = true) ∧
        (∀ (j : ℕ) (cj : String), j < i → (raw.map normalizeCol)[j]? = some cj →
          containsSub amountKey cj.data = false) ∧
        (renameAmount (raw.map normalizeCol))[i]? = some "amount_inr") := by
  refine ⟨?_, ?_, renameAmount_first _⟩
  · intro h
    rw [loadColumns]
    apply checkColumns_error_of_missing
    right; right; left
    rw [amount_inr_mem_renameAmount]
    rintro ⟨c, hc, hctrue⟩
    rw [h c hc] at hctrue
    cases hctrue
  · intro h
    rw [loadColumns]
    apply checkColumns_error_of_missing
    rcases h with h | h | h
    · left
      rw [mem_renameAmount_iff _ _ not_amount_sender_state]
      exact h
    · right; left
      rw [mem_renameAmount_iff _ _ not_amount_transaction_id]
      exact h
    · right; right; right
      rw [mem_renameAmount_iff _ _ not_amount_fraud_flag]
      exact h

/-- Witness for C1: a header with no amount column is rejected. -/
theorem load_data_schema_witness :
    ∃ e, loadColumns ["Sender State", "Fraud Flag"] = Except.error e :=
  (load_data_schema ["Sender State", "Fraud Flag"]).1 (by decide)

end ViksitBharat
